import Mathlib

/-!
Verification of the sliding-window rate limiter (ratelimiter-rs).

The definitions below are a shallow embedding of `src/rate_limiter.rs`,
`src/storage.rs` and `src/error.rs`: `u64`/`u32` values are modelled as `Nat`
(with the `now - window` subtraction treated separately, see `checkedSub`),
the fallible wall-clock read and the lock / connection outcomes are passed in
as explicit parameters, and the two storage backends are modelled as maps
from key strings to timestamp lists.
-/

namespace Ratelimiter

/-- Quota configuration for one request type (`Config` in rate_limiter.rs):
`capacity` is a `u32`, `window_time` a duration held here in milliseconds. -/
structure Config where
  capacity : Nat
  windowMillis : Nat
deriving DecidableEq

/-- Errors an admission attempt can surface: a failed wall-clock read
(rate_limiter.rs line 90), a failed lock acquisition (line 102), or a Redis
connection/script failure (lines 119 and 147). -/
inductive RLError where
  | clockError
  | lockError
  | connError
deriving DecidableEq

/-- A storage map from key to window log (`HashMap<String, Vec<u64>>`);
a missing key reads as the empty log (`or_insert_with(Vec::new)`). -/
abbrev WindowLogMap := String → List Nat

/-- The `Storage` enum of storage.rs: an in-process map, or a Redis client
whose sorted sets live behind composite key strings. -/
inductive Storage where
  | inMemory (store : WindowLogMap)
  | redis (store : WindowLogMap)

/-- `RateLimiter`: the per-request-type configs plus the storage backend. -/
structure RateLimiter where
  configs : String → Option Config
  storage : Storage

/-- `RateLimiter::add_config`: insert or replace the quota for a request type. -/
def addConfig (rl : RateLimiter) (requestType : String)
    (capacity windowMillis : Nat) : RateLimiter :=
  { rl with
    configs := fun k =>
      if k = requestType then some ⟨capacity, windowMillis⟩ else rl.configs k }

/-- The unchecked `u64` subtraction `now - config.window_time.as_millis()`
written at rate_limiter.rs lines 96 and 98; it is a faithful model of the
`u64` value only when `windowMillis ≤ now` (see `checkedSub`). -/
def evictionTimeMillis (now windowMillis : Nat) : Nat := now - windowMillis

/-- Model of `u64::checked_sub`: `none` exactly when the subtraction would
underflow. -/
def checkedSub (a b : Nat) : Option Nat := if b ≤ a then some (a - b) else none

/-- The in-memory admission step (rate_limiter.rs lines 103–116): retain the
entries with timestamp at least `eviction_time_in_millis`, count the retained
entries with timestamp at most `end_time_in_millis`, and append `now` exactly
when that count is below capacity. -/
def localStep (capacity evictionTime endTime now : Nat) (log : List Nat) :
    Bool × List Nat :=
  if ((log.filter fun ts => decide (evictionTime ≤ ts)).filter
        fun ts => decide (ts ≤ endTime)).length < capacity then
    (true, (log.filter fun ts => decide (evictionTime ≤ ts)) ++ [now])
  else
    (false, log.filter fun ts => decide (evictionTime ≤ ts))

/-- `ZADD key score member` with `member = score = current_time`: a sorted set
is keyed by member, so adding an already-present member does not grow it. -/
def zaddEntry (zset : List Nat) (currentTime : Nat) : List Nat :=
  if currentTime ∈ zset then zset else zset ++ [currentTime]

/-- The Lua script of the Redis arm (rate_limiter.rs lines 121–138):
`ZCOUNT` over `[start_time, end_time]`; when below the limit, `ZADD` the
current time and then `ZREMRANGEBYSCORE -inf eviction_time` (dropping scores
`≤ eviction_time`) and report admitted; otherwise report rejected with no
mutation. -/
def redisScript (limit startTime endTime currentTime evictionTime : Nat)
    (zset : List Nat) : Bool × List Nat :=
  if (zset.filter fun ts => decide (startTime ≤ ts ∧ ts ≤ endTime)).length < limit then
    (true, (zaddEntry zset currentTime).filter fun ts => decide (¬ ts ≤ evictionTime))
  else
    (false, zset)

/-- The composite Redis key `format!("{}:{}", user_id, request_type)`
(rate_limiter.rs line 140). -/
def redisKey (userId requestType : String) : String :=
  userId ++ ":" ++ requestType

/-- `RateLimiter::allowed` (rate_limiter.rs lines 89–155). The fallible clock
read is passed in as `clock`; `lockOk` and `connOk` stand for the lock and
connection outcomes. The result pairs the returned value with the storage
after the call. In the in-memory arm the log is looked up by the user id
alone (line 103); in the Redis arm by the composite key (line 140). -/
def allowed (rl : RateLimiter) (userId requestType : String)
    (clock : Except RLError Nat) (lockOk connOk : Bool) :
    Except RLError Bool × Storage :=
  match clock with
  | .error e => (.error e, rl.storage)
  | .ok now =>
    match rl.configs requestType with
    | none => (.ok false, rl.storage)
    | some config =>
      let startTime := evictionTimeMillis now config.windowMillis
      let endTime := now
      let evictionTime := evictionTimeMillis now config.windowMillis
      match rl.storage with
      | .inMemory store =>
        if lockOk then
          let res := localStep config.capacity evictionTime endTime now (store userId)
          (.ok res.1, .inMemory fun k => if k = userId then res.2 else store k)
        else (.error .lockError, rl.storage)
      | .redis store =>
        if connOk then
          let key := redisKey userId requestType
          let res := redisScript config.capacity startTime endTime now evictionTime (store key)
          (.ok res.1, .redis fun k => if k = key then res.2 else store k)
        else (.error .connError, rl.storage)

/-- Run a sequence of calls `(userId, requestType, now)` with a healthy
clock, lock and connection, threading the storage between calls. -/
def allowedRun (rl : RateLimiter) :
    List (String × String × Nat) → List (Except RLError Bool)
  | [] => []
  | (u, rt, t) :: rest =>
    let res := allowed rl u rt (.ok t) true true
    res.1 :: allowedRun { rl with storage := res.2 } rest

/-- The in-memory admission decisions along a timestamp trace for one key. -/
def localRun (capacity windowMillis : Nat) (log : List Nat) :
    List Nat → List Bool
  | [] => []
  | t :: ts =>
    let res := localStep capacity (t - windowMillis) t t log
    res.1 :: localRun capacity windowMillis res.2 ts

/-- The Redis admission decisions along a timestamp trace for one key. -/
def redisRun (capacity windowMillis : Nat) (zset : List Nat) :
    List Nat → List Bool
  | [] => []
  | t :: ts =>
    let res := redisScript capacity (t - windowMillis) t t (t - windowMillis) zset
    res.1 :: redisRun capacity windowMillis res.2 ts

/-- Number of entries of `s` inside the window `[t - windowMillis, t]`. -/
def winCount (windowMillis t : Nat) (s : List Nat) : Nat :=
  (s.filter fun x => decide (t - windowMillis ≤ x ∧ x ≤ t)).length

/-- Correspondence between an in-memory log and a Redis sorted set: all
entries lie strictly below `bound`, and the two sides agree on the window
count at every call time from `bound` on. -/
def StoresAgree (windowMillis bound : Nat) (l r : List Nat) : Prop :=
  (∀ x ∈ l, x < bound) ∧ (∀ x ∈ r, x < bound) ∧
  ∀ t, bound ≤ t → windowMillis ≤ t →
    winCount windowMillis t l = winCount windowMillis t r

/-- C5: an in-memory admission attempt with a registered quota first retains
exactly the consulted log's entries with timestamp at least `window_start`
(entries strictly below are dropped permanently); then, if the count of
remaining entries with timestamp at most `now` is strictly below capacity,
`now` is appended and `Ok(true)` is returned, and otherwise `Ok(false)` is
returned with the stored log equal to the post-eviction log (no append). -/
theorem allowed_inMemory_spec (cfg : String → Option Config)
    (store : WindowLogMap) (u rt : String) (now cap w : Nat)
    (hc : cfg rt = some ⟨cap, w⟩) :
    allowed ⟨cfg, .inMemory store⟩ u rt (.ok now) true true =
      if (((store u).filter fun ts => decide (¬ ts < now - w)).filter
            fun ts => decide (ts ≤ now)).length < cap then
        (.ok true, .inMemory fun k =>
          if k = u
          then ((store u).filter fun ts => decide (¬ ts < now - w)) ++ [now]
          else store k)
      else
        (.ok false, .inMemory fun k =>
          if k = u then (store u).filter fun ts => decide (¬ ts < now - w)
          else store k) := by
  have hp : (fun ts : Nat => decide (¬ ts < now - w))
      = fun ts : Nat => decide (now - w ≤ ts) := by
    funext ts
    simp [Nat.not_lt]
  rw [hp]
  simp only [allowed, hc, if_true, evictionTimeMillis, localStep]
  by_cases hlt : (((store u).filter fun ts => decide (now - w ≤ ts)).filter
      fun ts => decide (ts ≤ now)).length < cap
  · simp only [if_pos hlt]
  · simp only [if_neg hlt]

/-- Witness for `allowed_inMemory_spec`: capacity 1, window 10, one call at
time 100 on an empty store. -/
theorem allowed_inMemory_spec_witness :
    ((fun rt => if rt = "t" then some (⟨1, 10⟩ : Config) else none) "t"
        = some ⟨1, 10⟩) ∧
    allowed ⟨fun rt => if rt = "t" then some ⟨1, 10⟩ else none,
        .inMemory fun _ => []⟩ "u" "t" (.ok 100) true true
      = if ((([] : List Nat).filter fun ts => decide (¬ ts < 100 - 10)).filter
            fun ts => decide (ts ≤ 100)).length < 1 then
          (.ok true, .inMemory fun k =>
            if k = "u"
            then (([] : List Nat).filter fun ts => decide (¬ ts < 100 - 10))
              ++ [100]
            else [])
        else
          (.ok false, .inMemory fun k =>
            if k = "u"
            then ([] : List Nat).filter fun ts => decide (¬ ts < 100 - 10)
            else []) :=
  ⟨rfl, allowed_inMemory_spec _ _ "u" "t" 100 1 10 rfl⟩

/-- C9: the `u64` subtraction `now - window_millis` computing the window
start is well defined (its checked counterpart succeeds and agrees with the
value the code computes) exactly when `window_millis ≤ now`; otherwise it
underflows. -/
theorem windowStart_no_underflow (now windowMillis : Nat) :
    checkedSub now windowMillis = some (evictionTimeMillis now windowMillis)
      ↔ windowMillis ≤ now := by
  unfold checkedSub evictionTimeMillis
  by_cases h : windowMillis ≤ now
  · simp [h]
  · simp [h]

/-- C4 counterexample: with an unconfigured request type, `allowed` can still
return an error — the clock read at rate_limiter.rs line 90 precedes the
config lookup, so a clock failure propagates as `Err` rather than `Ok(false)`. -/
theorem unconfigured_clock_error :
    (allowed ⟨fun _ => none, .inMemory fun _ => []⟩ "u" "nonexistent"
        (.error .clockError) true true).1 = .error .clockError ∧
    (Except.error RLError.clockError : Except RLError Bool) ≠ .ok false :=
  ⟨rfl, by simp⟩

/-- C4 amended: provided the wall-clock read succeeds, `allowed` on a request
type with no registered quota returns `Ok(false)` with the storage unchanged —
fail-closed, never `Ok(true)`, and no error arises from the missing
configuration itself. -/
theorem unconfigured_fail_closed (cfg : String → Option Config) (st : Storage)
    (userId requestType : String) (now : Nat) (lockOk connOk : Bool)
    (h : cfg requestType = none) :
    allowed ⟨cfg, st⟩ userId requestType (.ok now) lockOk connOk
      = (.ok false, st) := by
  simp [allowed, h]

/-- Witness for `unconfigured_fail_closed` at a concrete configuration. -/
theorem unconfigured_fail_closed_witness :
    (fun _ : String => (none : Option Config)) "x" = none ∧
    allowed ⟨fun _ => none, .inMemory fun _ => []⟩ "u" "x" (.ok 5) true true
      = (.ok false, .inMemory fun _ => []) :=
  ⟨rfl, unconfigured_fail_closed (fun _ => none) (.inMemory fun _ => [])
    "u" "x" 5 true true rfl⟩

/-- C7: whenever `allowed` returns an error (failed clock read, failed lock
acquisition, or failed Redis connection), the storage is unchanged — every
error exit precedes any mutation. -/
theorem allowed_error_no_mutation (rl : RateLimiter)
    (userId requestType : String) (clock : Except RLError Nat)
    (lockOk connOk : Bool) (e : RLError)
    (h : (allowed rl userId requestType clock lockOk connOk).1 = .error e) :
    (allowed rl userId requestType clock lockOk connOk).2 = rl.storage := by
  unfold allowed at h ⊢
  cases clock with
  | error e2 => rfl
  | ok now =>
    cases hcfg : rl.configs requestType with
    | none => simp [hcfg]
    | some config =>
      cases hst : rl.storage with
      | inMemory store =>
        cases lockOk with
        | true => simp [hcfg, hst] at h
        | false => simp [hcfg, hst]
      | redis store =>
        cases connOk with
        | true => simp [hcfg, hst] at h
        | false => simp [hcfg, hst]

/-- Witness for `allowed_error_no_mutation`: a failed clock read leaves the
store untouched. -/
theorem allowed_error_no_mutation_witness :
    (allowed ⟨fun _ => none, .inMemory fun _ => []⟩ "u" "t"
        (.error .clockError) true true).1 = .error .clockError ∧
    (allowed ⟨fun _ => none, .inMemory fun _ => []⟩ "u" "t"
        (.error .clockError) true true).2
      = (⟨fun _ => none, .inMemory fun _ => []⟩ : RateLimiter).storage :=
  ⟨rfl, allowed_error_no_mutation ⟨fun _ => none, .inMemory fun _ => []⟩
    "u" "t" (.error .clockError) true true .clockError rfl⟩

/-- C8: `allowed` is not idempotent — from an empty log, with capacity at
least 2 two successive in-window admissions both succeed and leave two
entries, and with capacity 1 the first succeeds while the second, still in
the window, is rejected. -/
theorem allowed_not_idempotent (capacity windowMillis t1 t2 : Nat)
    (hcap : 2 ≤ capacity) (h12 : t1 ≤ t2)
    (hwin : t2 - windowMillis ≤ t1) :
    localStep capacity (t1 - windowMillis) t1 t1 [] = (true, [t1]) ∧
    localStep capacity (t2 - windowMillis) t2 t2 [t1] = (true, [t1, t2]) ∧
    (localStep 1 (t1 - windowMillis) t1 t1 []).1 = true ∧
    (localStep 1 (t2 - windowMillis) t2 t2 [t1]).1 = false := by
  have h0 : 0 < capacity := by omega
  have h1 : 1 < capacity := by omega
  have hwin' : t2 ≤ t1 + windowMillis := by omega
  have hnot : ¬ t1 + windowMillis < t2 := by omega
  refine ⟨?_, ?_, ?_, ?_⟩
  · simp [localStep, h0]
  · simp [localStep, hwin', h12, h1]
  · simp [localStep]
  · simp [localStep, hwin', h12, hnot]

/-- Witness for `allowed_not_idempotent` at capacity 2, window 10,
timestamps 100 and 105. -/
theorem allowed_not_idempotent_witness :
    2 ≤ 2 ∧ 100 ≤ 105 ∧ 105 - 10 ≤ 100 ∧
    (localStep 2 (100 - 10) 100 100 [] = (true, [100]) ∧
     localStep 2 (105 - 10) 105 105 [100] = (true, [100, 105]) ∧
     (localStep 1 (100 - 10) 100 100 []).1 = true ∧
     (localStep 1 (105 - 10) 105 105 [100]).1 = false) :=
  ⟨by decide, by decide, by decide,
    allowed_not_idempotent 2 10 100 105 (by decide) (by decide) (by decide)⟩

/-- C10: when every stored timestamp is at most `now` (as along any
non-decreasing clock trace) and an in-memory admission succeeds, the window
log immediately after the call has length at most the configured capacity. -/
theorem admitted_log_bounded (capacity windowMillis now : Nat)
    (log : List Nat) (hpast : ∀ ts ∈ log, ts ≤ now) :
    (localStep capacity (now - windowMillis) now now log).1 = true →
    (localStep capacity (now - windowMillis) now now log).2.length
      ≤ capacity := by
  intro htrue
  unfold localStep at htrue ⊢
  have hall : ((log.filter fun ts => decide ((now - windowMillis) ≤ ts)).filter
      fun ts => decide (ts ≤ now))
      = log.filter fun ts => decide ((now - windowMillis) ≤ ts) := by
    apply List.filter_eq_self.mpr
    intro x hx
    have hxlog : x ∈ log := List.mem_of_mem_filter hx
    simpa using hpast x hxlog
  rw [hall] at htrue ⊢
  by_cases hlt :
      (log.filter fun ts => decide ((now - windowMillis) ≤ ts)).length < capacity
  · rw [if_pos hlt] at htrue ⊢
    simp only [List.length_append, List.length_cons, List.length_nil]
    omega
  · rw [if_neg hlt] at htrue
    simp at htrue

/-- Witness for `admitted_log_bounded` at capacity 2, window 10, time 100,
log `[95]`. -/
theorem admitted_log_bounded_witness :
    (∀ ts ∈ [95], ts ≤ 100) ∧
    ((localStep 2 (100 - 10) 100 100 [95]).1 = true →
      (localStep 2 (100 - 10) 100 100 [95]).2.length ≤ 2) :=
  ⟨by decide, admitted_log_bounded 2 10 100 [95] (by decide)⟩

/-- C1 (code bug): the in-memory store keys window logs by the identity
alone (rate_limiter.rs line 103), so exhausting the quota of one request type
denies a different request type for the same identity: with both types at
capacity 1, a first call for type `a` makes the very first call for type `b`
return `Ok(false)`. -/
theorem cross_type_interference :
    allowedRun
      ⟨fun rt => if rt = "a" then some ⟨1, 1000⟩
                 else if rt = "b" then some ⟨1, 1000⟩ else none,
       .inMemory fun _ => []⟩
      [("u", "a", 5000), ("u", "b", 5000)]
      = [.ok true, .ok false] := by
  rfl

/-- C3 (code bug): because the in-memory log is shared across request types,
a call for type `b` (window 1 ms, capacity 0) evicts type `a` entries, after
which type `a` (capacity 1, window 100 ms) admits twice within one window —
admissions at 1000 and 1010 both succeed despite capacity 1. -/
theorem shared_log_capacity_violation :
    allowedRun
      ⟨fun rt => if rt = "a" then some ⟨1, 100⟩
                 else if rt = "b" then some ⟨0, 1⟩ else none,
       .inMemory fun _ => []⟩
      [("u", "a", 1000), ("u", "b", 1010), ("u", "a", 1010)]
      = [.ok true, .ok false, .ok true] := by
  rfl

/-- C2 counterexample: the two backends disagree. First trace: two request
types, each capacity 1 — the in-memory store shares one log per identity and
denies the first type-`b` call, while Redis keys per `(identity, type)` and
admits it. Second trace: a single type, capacity 2, window 10, calls at
5000, 5010, 5010 — the in-memory log retains the boundary entry 5000 and
denies the third call, while the Redis script pruned scores `≤ 5000` after
the second admission and admits it. -/
theorem backend_divergence :
    (allowedRun
        ⟨fun rt => if rt = "a" then some ⟨1, 1000⟩
                   else if rt = "b" then some ⟨1, 1000⟩ else none,
         .inMemory fun _ => []⟩
        [("u", "a", 5000), ("u", "b", 5000)]
        = [.ok true, .ok false] ∧
     allowedRun
        ⟨fun rt => if rt = "a" then some ⟨1, 1000⟩
                   else if rt = "b" then some ⟨1, 1000⟩ else none,
         .redis fun _ => []⟩
        [("u", "a", 5000), ("u", "b", 5000)]
        = [.ok true, .ok true]) ∧
    (allowedRun
        ⟨fun rt => if rt = "a" then some ⟨2, 10⟩ else none,
         .inMemory fun _ => []⟩
        [("u", "a", 5000), ("u", "a", 5010), ("u", "a", 5010)]
        = [.ok true, .ok true, .ok false] ∧
     allowedRun
        ⟨fun rt => if rt = "a" then some ⟨2, 10⟩ else none,
         .redis fun _ => []⟩
        [("u", "a", 5000), ("u", "a", 5010), ("u", "a", 5010)]
        = [.ok true, .ok true, .ok true]) :=
  ⟨⟨rfl, rfl⟩, ⟨rfl, rfl⟩⟩

/-- Filtering by a predicate implied by the counted one does not change a
filtered length. -/
theorem length_filter_filter_of_imp {p q : Nat → Bool} (l : List Nat)
    (h : ∀ x, q x = true → p x = true) :
    ((l.filter p).filter q).length = (l.filter q).length := by
  induction l with
  | nil => rfl
  | cons a l ih =>
    by_cases hpa : p a = true
    · rw [List.filter_cons_of_pos hpa]
      by_cases hqa : q a = true
      · rw [List.filter_cons_of_pos hqa, List.filter_cons_of_pos hqa,
          List.length_cons, List.length_cons, ih]
      · rw [List.filter_cons_of_neg hqa, List.filter_cons_of_neg hqa]
        exact ih
    · have hqa : ¬ q a = true := fun hq => hpa (h a hq)
      rw [List.filter_cons_of_neg hpa, List.filter_cons_of_neg hqa]
      exact ih

/-- The count inside `localStep` (evict, then count up to `now`) equals the
window count. -/
theorem localCount_eq_winCount (windowMillis t : Nat) (l : List Nat) :
    ((l.filter fun ts => decide (t - windowMillis ≤ ts)).filter
        fun ts => decide (ts ≤ t)).length = winCount windowMillis t l := by
  rw [List.filter_filter]
  have hfun : (fun a : Nat => decide (a ≤ t) && decide (t - windowMillis ≤ a))
      = fun x : Nat => decide (t - windowMillis ≤ x ∧ x ≤ t) := by
    funext x
    by_cases h1 : t - windowMillis ≤ x <;> by_cases h2 : x ≤ t <;>
      simp [h1, h2]
  rw [hfun]
  rfl

/-- Eviction at a time no later than the counting time does not change a
window count. -/
theorem winCount_filter_ge (windowMillis t t2 : Nat) (l : List Nat)
    (h : t ≤ t2) :
    winCount windowMillis t2 (l.filter fun x => decide (t - windowMillis ≤ x))
      = winCount windowMillis t2 l := by
  unfold winCount
  apply length_filter_filter_of_imp
  intro x hx
  simp only [decide_eq_true_eq] at hx ⊢
  omega

/-- Pruning scores at most `t - windowMillis` does not change the window
count at any strictly later time `t2`. -/
theorem winCount_filter_gt (windowMillis t t2 : Nat) (r : List Nat)
    (hw : windowMillis ≤ t) (h : t < t2) :
    winCount windowMillis t2 (r.filter fun x => decide (¬ x ≤ t - windowMillis))
      = winCount windowMillis t2 r := by
  unfold winCount
  apply length_filter_filter_of_imp
  intro x hx
  simp only [decide_eq_true_eq] at hx ⊢
  omega

/-- Window counts add over list append. -/
theorem winCount_append (windowMillis t : Nat) (l l2 : List Nat) :
    winCount windowMillis t (l ++ l2)
      = winCount windowMillis t l + winCount windowMillis t l2 := by
  simp [winCount, List.filter_append]

/-- One call preserves the correspondence between the two backends and both
report the same decision. -/
theorem step_equiv (cap windowMillis t bound : Nat) (l r : List Nat)
    (hA : StoresAgree windowMillis bound l r) (hbt : bound ≤ t)
    (hwt : windowMillis ≤ t) :
    (localStep cap (t - windowMillis) t t l).1
      = (redisScript cap (t - windowMillis) t t (t - windowMillis) r).1 ∧
    StoresAgree windowMillis (t + 1)
      (localStep cap (t - windowMillis) t t l).2
      (redisScript cap (t - windowMillis) t t (t - windowMillis) r).2 := by
  obtain ⟨hl, hr, hcnt⟩ := hA
  have hcl := localCount_eq_winCount windowMillis t l
  have hcr : (r.filter fun ts => decide (t - windowMillis ≤ ts ∧ ts ≤ t)).length
      = winCount windowMillis t r := rfl
  have hc := hcnt t hbt hwt
  unfold localStep redisScript
  rw [hcl, hcr, hc]
  by_cases hadm : winCount windowMillis t r < cap
  · rw [if_pos hadm, if_pos hadm]
    have htr : t ∉ r := fun hmem => absurd (hr t hmem) (by omega)
    have hz : zaddEntry r t = r ++ [t] := by
      unfold zaddEntry
      rw [if_neg htr]
    refine ⟨rfl, ?_, ?_, ?_⟩
    · intro x hx
      rcases List.mem_append.mp hx with hx2 | hx2
      · exact lt_of_lt_of_le (hl x (List.mem_of_mem_filter hx2)) (by omega)
      · simp only [List.mem_singleton] at hx2
        omega
    · intro x hx
      rw [hz] at hx
      have hx2 := List.mem_of_mem_filter hx
      rcases List.mem_append.mp hx2 with hx3 | hx3
      · exact lt_of_lt_of_le (hr x hx3) (by omega)
      · simp only [List.mem_singleton] at hx3
        omega
    · intro t2 hbt2 hwt2
      have htt2 : t < t2 := by omega
      have hle : t ≤ t2 := by omega
      have h1 := winCount_filter_ge windowMillis t t2 l hle
      have h2 := winCount_filter_gt windowMillis t t2 (r ++ [t]) hwt htt2
      have h3 := hcnt t2 (by omega) hwt2
      rw [winCount_append, h1, hz, h2, winCount_append, h3]
  · rw [if_neg hadm, if_neg hadm]
    refine ⟨rfl, ?_, ?_, ?_⟩
    · intro x hx
      exact lt_of_lt_of_le (hl x (List.mem_of_mem_filter hx)) (by omega)
    · intro x hx
      exact lt_of_lt_of_le (hr x hx) (by omega)
    · intro t2 hbt2 hwt2
      have hle : t ≤ t2 := by omega
      rw [winCount_filter_ge windowMillis t t2 l hle]
      exact hcnt t2 (by omega) hwt2

/-- Along a strictly increasing trace of call times that never underflow the
window, corresponding backends produce identical decision sequences. -/
theorem runs_equiv (cap windowMillis : Nat) :
    ∀ (ts : List Nat) (bound : Nat) (l r : List Nat),
      StoresAgree windowMillis bound l r → ts.Pairwise (· < ·) →
      (∀ t ∈ ts, bound ≤ t) → (∀ t ∈ ts, windowMillis ≤ t) →
      localRun cap windowMillis l ts = redisRun cap windowMillis r ts := by
  intro ts
  induction ts with
  | nil =>
    intro bound l r _ _ _ _
    rfl
  | cons t ts ih =>
    intro bound l r hA hp hb hw
    have hbt : bound ≤ t := hb t (List.mem_cons_self t ts)
    have hwt : windowMillis ≤ t := hw t (List.mem_cons_self t ts)
    obtain ⟨heq, hA2⟩ := step_equiv cap windowMillis t bound l r hA hbt hwt
    rw [List.pairwise_cons] at hp
    obtain ⟨hhead, htail⟩ := hp
    have hrec := ih (t + 1) (localStep cap (t - windowMillis) t t l).2
      (redisScript cap (t - windowMillis) t t (t - windowMillis) r).2 hA2 htail
      (fun t2 ht2 => by have := hhead t2 ht2; omega)
      (fun t2 ht2 => hw t2 (List.mem_cons_of_mem t ht2))
    simp only [localRun, redisRun]
    rw [heq, hrec]

/-- Running a single-key trace through the in-memory backend of `allowed`
matches `localRun` on that key's log. -/
theorem allowedRun_inMemory_single (cfg : String → Option Config)
    (u rt : String) (cap windowMillis : Nat)
    (hc : cfg rt = some ⟨cap, windowMillis⟩) :
    ∀ (ts : List Nat) (store : WindowLogMap),
      allowedRun ⟨cfg, .inMemory store⟩ (ts.map fun t => (u, rt, t))
        = (localRun cap windowMillis (store u) ts).map Except.ok := by
  intro ts
  induction ts with
  | nil =>
    intro store
    rfl
  | cons t ts ih =>
    intro store
    simp only [List.map_cons, allowedRun, allowed, hc, localRun,
      evictionTimeMillis, if_true]
    rw [ih]
    simp

/-- Running a single-key trace through the Redis backend of `allowed`
matches `redisRun` on that key's sorted set. -/
theorem allowedRun_redis_single (cfg : String → Option Config)
    (u rt : String) (cap windowMillis : Nat)
    (hc : cfg rt = some ⟨cap, windowMillis⟩) :
    ∀ (ts : List Nat) (store : WindowLogMap),
      allowedRun ⟨cfg, .redis store⟩ (ts.map fun t => (u, rt, t))
        = (redisRun cap windowMillis (store (redisKey u rt)) ts).map Except.ok := by
  intro ts
  induction ts with
  | nil =>
    intro store
    rfl
  | cons t ts ih =>
    intro store
    simp only [List.map_cons, allowedRun, allowed, hc, redisRun,
      evictionTimeMillis, if_true]
    rw [ih]
    simp

/-- The correspondence survives raising its bound. -/
theorem storesAgree_mono (windowMillis b b2 : Nat) (l r : List Nat)
    (h : StoresAgree windowMillis b l r) (hb : b ≤ b2) :
    StoresAgree windowMillis b2 l r := by
  obtain ⟨h1, h2, h3⟩ := h
  exact ⟨fun x hx => lt_of_lt_of_le (h1 x hx) hb,
    fun x hx => lt_of_lt_of_le (h2 x hx) hb,
    fun t ht hw => h3 t (le_trans hb ht) hw⟩

/-- For a fixed request type, the composite Redis key determines the
identity. -/
theorem redisKey_inj (u v rt : String) (h : redisKey u rt = redisKey v rt) :
    u = v := by
  unfold redisKey at h
  have hd := congrArg String.data h
  simp only [String.data_append] at hd
  exact String.ext (List.append_cancel_right (List.append_cancel_right hd))

/-- Running a single-request-type trace (arbitrary identities) through the
two backends of `allowed` from corresponding stores yields the same decision
sequence. -/
theorem allowedRun_equiv_aux (cfg : String → Option Config) (rt : String)
    (cap windowMillis : Nat) (hc : cfg rt = some ⟨cap, windowMillis⟩) :
    ∀ (calls : List (String × Nat)) (bound : Nat)
      (storeL storeR : WindowLogMap),
      (∀ u, StoresAgree windowMillis bound (storeL u)
        (storeR (redisKey u rt))) →
      (calls.map Prod.snd).Pairwise (· < ·) →
      (∀ c ∈ calls, bound ≤ c.2) → (∀ c ∈ calls, windowMillis ≤ c.2) →
      allowedRun ⟨cfg, .inMemory storeL⟩ (calls.map fun c => (c.1, rt, c.2))
        = allowedRun ⟨cfg, .redis storeR⟩
            (calls.map fun c => (c.1, rt, c.2)) := by
  intro calls
  induction calls with
  | nil =>
    intro bound storeL storeR _ _ _ _
    rfl
  | cons c calls ih =>
    obtain ⟨u, t⟩ := c
    intro bound storeL storeR hInv hp hb hw
    have hbt : bound ≤ t := hb (u, t) (List.mem_cons_self _ _)
    have hwt : windowMillis ≤ t := hw (u, t) (List.mem_cons_self _ _)
    obtain ⟨heq, hA2⟩ := step_equiv cap windowMillis t bound (storeL u)
      (storeR (redisKey u rt)) (hInv u) hbt hwt
    simp only [List.map_cons] at hp
    rw [List.pairwise_cons] at hp
    obtain ⟨hhead, htail⟩ := hp
    simp only [List.map_cons, allowedRun, allowed, hc, if_true,
      evictionTimeMillis]
    rw [heq]
    congr 1
    refine ih (t + 1)
      (fun k => if k = u
        then (localStep cap (t - windowMillis) t t (storeL u)).2
        else storeL k)
      (fun k => if k = redisKey u rt
        then (redisScript cap (t - windowMillis) t t (t - windowMillis)
          (storeR (redisKey u rt))).2
        else storeR k)
      ?_ htail ?_ ?_
    · intro v
      by_cases hvu : v = u
      · subst hvu
        simpa using hA2
      · have hk : ¬ redisKey v rt = redisKey u rt :=
          fun hk => hvu (redisKey_inj v u rt hk)
        simp only [if_neg hvu, if_neg hk]
        exact storesAgree_mono windowMillis bound (t + 1) _ _ (hInv v)
          (by omega)
    · intro c hc2
      have := hhead c.2 (List.mem_map_of_mem Prod.snd hc2)
      omega
    · intro c hc2
      exact hw c (List.mem_cons_of_mem _ hc2)

/-- C2 amended: for a deterministic single-threaded trace over one
registered request type (any identities), with strictly increasing call
timestamps each at least the window length (so the window start never
underflows), the in-memory backend and the Redis backend return the same
sequence of decisions under identical configuration. -/
theorem backend_equiv_one_type (cfg : String → Option Config) (rt : String)
    (cap windowMillis : Nat) (calls : List (String × Nat))
    (hc : cfg rt = some ⟨cap, windowMillis⟩)
    (hinc : (calls.map Prod.snd).Pairwise (· < ·))
    (hw : ∀ c ∈ calls, windowMillis ≤ c.2) :
    allowedRun ⟨cfg, .inMemory fun _ => []⟩
        (calls.map fun c => (c.1, rt, c.2))
      = allowedRun ⟨cfg, .redis fun _ => []⟩
        (calls.map fun c => (c.1, rt, c.2)) :=
  allowedRun_equiv_aux cfg rt cap windowMillis hc calls 0 _ _
    (fun _ => ⟨by simp, by simp, fun t _ _ => rfl⟩) hinc
    (fun c _ => Nat.zero_le _) hw

/-- Witness for `backend_equiv_one_type`: capacity 1, window 10, two
identities calling at times 10, 11, 12. -/
theorem backend_equiv_one_type_witness :
    (fun rt => if rt = "a" then some (⟨1, 10⟩ : Config) else none) "a"
        = some ⟨1, 10⟩ ∧
    List.Pairwise (· < ·)
      (List.map Prod.snd [("u", 10), ("v", 11), ("u", 12)]) ∧
    (∀ c ∈ [("u", 10), ("v", 11), ("u", 12)], 10 ≤ c.2) ∧
    allowedRun
        ⟨fun rt => if rt = "a" then some ⟨1, 10⟩ else none,
         .inMemory fun _ => []⟩
        (List.map (fun c => (c.1, "a", c.2)) [("u", 10), ("v", 11), ("u", 12)])
      = allowedRun
        ⟨fun rt => if rt = "a" then some ⟨1, 10⟩ else none,
         .redis fun _ => []⟩
        (List.map (fun c => (c.1, "a", c.2)) [("u", 10), ("v", 11), ("u", 12)]) :=
  ⟨rfl, by simp, by decide,
    backend_equiv_one_type _ "a" 1 10 [("u", 10), ("v", 11), ("u", 12)] rfl
      (by simp) (by decide)⟩

/-- C6: with capacity 2 and a 15000 ms window registered for `type1`, four
calls for `user12345` at times `b`, `b + 1000`, `b + 2000` and `b + 16000`
(clock at least the window length, starting from an empty store) return
true, true, false, true: the first admission has left the window by the
fourth call. -/
theorem concrete_scenario (b : Nat) (hb : 15000 ≤ b) :
    allowedRun
      ⟨fun rt => if rt = "type1" then some ⟨2, 15000⟩ else none,
       .inMemory fun _ => []⟩
      [("user12345", "type1", b), ("user12345", "type1", b + 1000),
       ("user12345", "type1", b + 2000), ("user12345", "type1", b + 16000)]
      = [.ok true, .ok true, .ok false, .ok true] := by
  have hmap : [("user12345", "type1", b), ("user12345", "type1", b + 1000),
      ("user12345", "type1", b + 2000), ("user12345", "type1", b + 16000)]
      = List.map (fun t => ("user12345", "type1", t))
          [b, b + 1000, b + 2000, b + 16000] := rfl
  rw [hmap, allowedRun_inMemory_single _ "user12345" "type1" 2 15000
    (by simp) _ (fun _ => [])]
  have e1 : localStep 2 (b - 15000) b b [] = (true, [b]) := by
    simp [localStep]
  have e2 : localStep 2 (b + 1000 - 15000) (b + 1000) (b + 1000) [b]
      = (true, [b, b + 1000]) := by
    have h1 : b + 1000 - 15000 ≤ b := by omega
    have h2 : b ≤ b + 1000 := by omega
    simp [localStep, h1, h2]
  have e3 : localStep 2 (b + 2000 - 15000) (b + 2000) (b + 2000) [b, b + 1000]
      = (false, [b, b + 1000]) := by
    have h1 : b + 2000 - 15000 ≤ b := by omega
    have h2 : b + 2000 - 15000 ≤ b + 1000 := by omega
    have h3 : b ≤ b + 2000 := by omega
    have h4 : b + 1000 ≤ b + 2000 := by omega
    have h5 : b ≤ b + 1000 + 13000 := by omega
    have h6 : b ≤ b + 14000 := by omega
    simp [localStep, h1, h2, h3, h4, h5, h6]
  have e4 : localStep 2 (b + 16000 - 15000) (b + 16000) (b + 16000)
      [b, b + 1000] = (true, [b + 1000, b + 16000]) := by
    have h1 : ¬ b + 16000 - 15000 ≤ b := by omega
    have h2 : b + 16000 - 15000 ≤ b + 1000 := by omega
    have h3 : b + 1000 ≤ b + 16000 := by omega
    simp [localStep, h1, h2, h3]
  have hrun : localRun 2 15000 [] [b, b + 1000, b + 2000, b + 16000]
      = [true, true, false, true] := by
    simp only [localRun, e1, e2, e3, e4]
  rw [hrun]
  rfl

/-- Witness for `concrete_scenario` at base time 15000. -/
theorem concrete_scenario_witness :
    15000 ≤ 15000 ∧
    allowedRun
      ⟨fun rt => if rt = "type1" then some ⟨2, 15000⟩ else none,
       .inMemory fun _ => []⟩
      [("user12345", "type1", 15000), ("user12345", "type1", 15000 + 1000),
       ("user12345", "type1", 15000 + 2000), ("user12345", "type1", 15000 + 16000)]
      = [.ok true, .ok true, .ok false, .ok true] :=
  ⟨le_refl 15000, concrete_scenario 15000 (le_refl 15000)⟩

end Ratelimiter
